import Mathlib

/-
Verification of the Tequila client library (crates `tequila` and `tequila_macros`).

The Rust sources are embedded shallowly:
  * Rust `String` / `&str` values are modelled as `List Char` (named `Str`),
    so that the byte-level splitting functions of the source can be stated
    and proved by structural induction.
  * `HashMap<String, String>` is modelled as an association list together
    with an `insert` that removes any previous binding of the key, which has
    exactly the observable lookup behaviour of `HashMap::insert`.
  * network I/O (reqwest) is an opaque capability: each function that
    performs a POST takes the transport outcome (`Except Unit Str`) as an
    explicit argument.
  * the code generated by `#[derive(FromTequilaAttributes)]` is embedded as
    a function over the list of field descriptors the macro extracts, with
    field values living in a small universe `FieldValue`.
  * the `OnceLock` based schema cache of `tequila_macros::get_config` is
    modelled by an explicit two-thread interleaving semantics.
-/

namespace Tequila

/-- Rust strings, modelled as lists of characters. -/
abbrev Str := List Char

/-- `HashMap<String, String>` from `build_hashmap`, as an association list. -/
abbrev AttributeMap := List (Str × Str)

/-- Lookup in the attribute map (`HashMap::get`). -/
def AttributeMap.get? (m : AttributeMap) (k : Str) : Option Str :=
  match m with
  | [] => none
  | p :: ps => if p.1 = k then some p.2 else AttributeMap.get? ps k

/-- Overwriting insertion (`HashMap::insert`): any previous binding of the key
is removed and the new pair is appended. -/
def AttributeMap.insert (m : AttributeMap) (k v : Str) : AttributeMap :=
  match m with
  | [] => [(k, v)]
  | p :: ps =>
    if p.1 = k then AttributeMap.insert ps k v else p :: AttributeMap.insert ps k v

/-- `TequilaError` from `src/lib.rs`.  The `reqwest::Error` payload of
`RequestError` is opaque to this subsystem and is modelled by `Unit`. -/
inductive TequilaError
  | InvalidResponse
  | RequestError (cause : Unit)
  | MissingAttributes (keys : List Str)
deriving DecidableEq

/-- Rust `str::split_once(sep)`: split at the first occurrence of `sep`,
returning `none` when `sep` does not occur. -/
def splitOnce (sep : Char) : Str → Option (Str × Str)
  | [] => none
  | c :: cs =>
    if c = sep then some ([], cs)
    else (splitOnce sep cs).map fun p => (c :: p.1, p.2)

/-- The fold step of `build_hashmap` (the closure passed to `fold`), with the
three match arms in source order. -/
def insertLine (map : Except TequilaError AttributeMap) (opt : Option (Str × Str)) :
    Except TequilaError AttributeMap :=
  match map, opt with
  | .ok m, some kv => .ok (AttributeMap.insert m kv.1 kv.2)
  | .error e, _ => .error e
  | _, none => .error .InvalidResponse

/-- `build_hashmap` from `src/lib.rs`: split the response on line feeds,
drop empty lines, split each remaining line at its first `=`, and fold the
pairs into a map. -/
def build_hashmap (s : Str) : Except TequilaError AttributeMap :=
  ((((s.splitOn '\n').filter fun l => !l.isEmpty).map (splitOnce '=')).foldl
    insertLine (.ok []))

/-- The non-empty lines of a response, as `build_hashmap` sees them. -/
def parsedLines (s : Str) : List Str :=
  (s.splitOn '\n').filter fun l => !l.isEmpty

/-- The key/value pairs extracted from the parseable lines of a response. -/
def pairsOf (s : Str) : List (Str × Str) :=
  (parsedLines s).filterMap (splitOnce '=')

/-- Specification helper: the binding a sequence of insertions leaves for a
key, with a later pair for the same key overwriting an earlier one. -/
def lastBinding : List (Str × Str) → Str → Option Str
  | [], _ => none
  | p :: ps, k =>
    match lastBinding ps k with
    | some v => some v
    | none => if p.1 = k then some p.2 else none

theorem get?_insert (m : AttributeMap) (k v k' : Str) :
    AttributeMap.get? (AttributeMap.insert m k v) k' =
      if k' = k then some v else AttributeMap.get? m k' := by
  induction m with
  | nil =>
    simp only [AttributeMap.insert, AttributeMap.get?]
    by_cases h : k = k'
    · simp [h]
    · have h' : ¬ k' = k := fun hh => h hh.symm
      rw [if_neg h, if_neg h']
  | cons p ps ih =>
    simp only [AttributeMap.insert]
    by_cases hp : p.1 = k
    · rw [if_pos hp, ih]
      by_cases hk : k' = k
      · simp [hk]
      · have hpk' : ¬ p.1 = k' := by rw [hp]; exact fun hh => hk hh.symm
        simp [AttributeMap.get?, hk, hpk']
    · rw [if_neg hp]
      simp only [AttributeMap.get?]
      by_cases hpk : p.1 = k'
      · have hk : ¬ k' = k := fun hh => hp (hpk.trans hh)
        simp [hpk, hk]
      · rw [if_neg hpk, ih]
        by_cases hk : k' = k
        · simp [hk]
        · simp [hk, hpk]

theorem get?_foldl_insert (ps : List (Str × Str)) (m0 : AttributeMap) (k : Str) :
    AttributeMap.get? (ps.foldl (fun m p => AttributeMap.insert m p.1 p.2) m0) k =
      (lastBinding ps k).elim (AttributeMap.get? m0 k) some := by
  induction ps generalizing m0 with
  | nil => simp [lastBinding]
  | cons p ps ih =>
    simp only [List.foldl_cons, ih, lastBinding]
    cases hps : lastBinding ps k with
    | some v => simp
    | none =>
      simp only [Option.elim]
      rw [get?_insert]
      by_cases h : p.1 = k
      · simp [h]
      · have h' : ¬ k = p.1 := fun hh => h hh.symm
        simp [h, h']

theorem insertLine_error (opts : List (Option (Str × Str))) (e : TequilaError) :
    opts.foldl insertLine (.error e) = .error e := by
  induction opts with
  | nil => rfl
  | cons o os ih =>
    have : insertLine (.error e) o = .error e := by cases o <;> rfl
    simp [this, ih]

theorem foldl_insertLine_some (ls : List Str) (m0 : AttributeMap)
    (h : ∀ l ∈ ls, (splitOnce '=' l).isSome) :
    (ls.map (splitOnce '=')).foldl insertLine (.ok m0) =
      .ok ((ls.filterMap (splitOnce '=')).foldl
        (fun m p => AttributeMap.insert m p.1 p.2) m0) := by
  induction ls generalizing m0 with
  | nil => rfl
  | cons l ls ih =>
    obtain ⟨p, hp⟩ := Option.isSome_iff_exists.mp (h l (List.mem_cons_self l ls))
    simp only [List.map_cons, List.filterMap_cons, hp, List.foldl_cons]
    have step : insertLine (.ok m0) (some p) = .ok (AttributeMap.insert m0 p.1 p.2) := rfl
    rw [step, ih _ fun l hl => h l (List.mem_cons_of_mem _ hl)]

theorem foldl_insertLine_none (ls : List Str) (m0 : AttributeMap)
    (h : ∃ l ∈ ls, splitOnce '=' l = none) :
    (ls.map (splitOnce '=')).foldl insertLine (.ok m0) = .error .InvalidResponse := by
  induction ls generalizing m0 with
  | nil => simp at h
  | cons l ls ih =>
    simp only [List.map_cons, List.foldl_cons]
    cases hl : splitOnce '=' l with
    | none =>
      have : insertLine (.ok m0) none = .error .InvalidResponse := rfl
      rw [this, insertLine_error]
    | some p =>
      have step : insertLine (.ok m0) (some p) = .ok (AttributeMap.insert m0 p.1 p.2) := rfl
      rw [step]
      rcases h with ⟨l', hl', hnone⟩
      rcases List.mem_cons.mp hl' with rfl | hmem
      · rw [hl] at hnone; cases hnone
      · exact ih _ ⟨l', hmem, hnone⟩

theorem splitOnce_eq_none_iff (sep : Char) (s : Str) :
    splitOnce sep s = none ↔ sep ∉ s := by
  induction s with
  | nil => simp [splitOnce]
  | cons c cs ih =>
    simp only [splitOnce]
    by_cases h : c = sep
    · simp [h]
    · simp only [if_neg h, Option.map_eq_none', ih, List.mem_cons, not_or]
      constructor
      · intro hns
        exact ⟨fun hh => h hh.symm, hns⟩
      · intro hns
        exact hns.2

theorem build_hashmap_spec_aux (s : Str) :
    (build_hashmap s = .error .InvalidResponse ↔ ∃ l ∈ parsedLines s, '=' ∉ l) ∧
    ((∀ l ∈ parsedLines s, '=' ∈ l) →
      ∃ m, build_hashmap s = .ok m ∧
        ∀ k, AttributeMap.get? m k = lastBinding (pairsOf s) k) := by
  have hbh : build_hashmap s =
      ((parsedLines s).map (splitOnce '=')).foldl insertLine (.ok []) := rfl
  constructor
  · constructor
    · intro herr
      by_contra hno
      push_neg at hno
      have hall : ∀ l ∈ parsedLines s, (splitOnce '=' l).isSome := by
        intro l hl
        cases hso : splitOnce '=' l with
        | none => exact absurd ((splitOnce_eq_none_iff '=' l).mp hso) (by simpa using hno l hl)
        | some p => rfl
      rw [hbh, foldl_insertLine_some _ _ hall] at herr
      cases herr
    · rintro ⟨l, hl, hne⟩
      rw [hbh, foldl_insertLine_none]
      exact ⟨l, hl, (splitOnce_eq_none_iff '=' l).mpr hne⟩
  · intro hall
    have hsome : ∀ l ∈ parsedLines s, (splitOnce '=' l).isSome := by
      intro l hl
      cases hso : splitOnce '=' l with
      | none => exact absurd ((splitOnce_eq_none_iff '=' l).mp hso) (by simp [hall l hl])
      | some p => rfl
    refine ⟨_, by rw [hbh, foldl_insertLine_some _ _ hsome], ?_⟩
    intro k
    rw [get?_foldl_insert]
    simp only [pairsOf]
    cases lastBinding ((parsedLines s).filterMap (splitOnce '=')) k <;>
      simp [AttributeMap.get?]

/-- The request-body encoding of `send_request`: for each pair append
`"\n{key}={value}"`, starting from the empty string. -/
def encode_body (body : List (Str × Str)) : Str :=
  body.foldl (fun acc kv => acc ++ '\n' :: (kv.1 ++ '=' :: kv.2)) []

theorem encode_body_eq (body : List (Str × Str)) :
    encode_body body = (body.map fun kv => '\n' :: (kv.1 ++ '=' :: kv.2)).flatten := by
  have aux : ∀ (bs : List (Str × Str)) (acc : Str),
      bs.foldl (fun acc kv => acc ++ '\n' :: (kv.1 ++ '=' :: kv.2)) acc =
        acc ++ (bs.map fun kv => '\n' :: (kv.1 ++ '=' :: kv.2)).flatten := by
    intro bs
    induction bs with
    | nil => simp
    | cons b bs ih => intro acc; simp [ih]
  simpa using aux body []

theorem splitOn_flatten_newline (lines : List Str) (h : ∀ l ∈ lines, '\n' ∉ l) :
    ((lines.map fun l => '\n' :: l).flatten).splitOn '\n' = [] :: lines := by
  induction lines with
  | nil => simp [List.splitOn]
  | cons l ls ih =>
    have hl : ∀ x ∈ l, ¬ ((x == '\n') = true) := by
      intro x hx hxeq
      exact h l (List.mem_cons_self l ls) ((beq_iff_eq.mp hxeq) ▸ hx)
    simp only [List.map_cons, List.flatten_cons, List.cons_append, List.splitOn,
      List.splitOnP_cons, beq_self_eq_true, if_true]
    cases ls with
    | nil =>
      simp only [List.map_nil, List.flatten_nil, List.append_nil]
      rw [List.splitOnP_eq_single _ _ hl]
    | cons l' ls' =>
      have ihr := ih fun x hx => h x (List.mem_cons_of_mem _ hx)
      simp only [List.map_cons, List.flatten_cons, List.cons_append, List.splitOn,
        List.splitOnP_cons, beq_self_eq_true, if_true, List.cons.injEq, true_and] at ihr
      simp only [List.map_cons, List.flatten_cons, List.cons_append]
      rw [List.splitOnP_first _ _ hl '\n' (by simp), ihr]

theorem splitOnce_append (k v : Str) (h : '=' ∉ k) :
    splitOnce '=' (k ++ '=' :: v) = some (k, v) := by
  induction k with
  | nil => simp [splitOnce]
  | cons c cs ih =>
    have hc : ¬ c = '=' := fun hh => h (hh ▸ List.mem_cons_self c cs)
    have ih' := ih fun hm => h (List.mem_cons_of_mem c hm)
    simp [splitOnce, if_neg hc, ih']

/-- The non-empty lines of an encoded body are exactly the `key=value` lines
of the pairs, provided keys and values contain no line feed. -/
theorem parsedLines_encode (body : List (Str × Str))
    (hk : ∀ p ∈ body, '\n' ∉ p.1) (hv : ∀ p ∈ body, '\n' ∉ p.2) :
    parsedLines (encode_body body) = body.map fun p => p.1 ++ '=' :: p.2 := by
  have hlines : ∀ l ∈ body.map (fun p => p.1 ++ '=' :: p.2), '\n' ∉ l := by
    intro l hl
    obtain ⟨p, hp, rfl⟩ := List.mem_map.mp hl
    intro hmem
    rcases List.mem_append.mp hmem with h1 | h2
    · exact hk p hp h1
    · rcases List.mem_cons.mp h2 with h3 | h4
      · cases h3
      · exact hv p hp h4
  have hflat : encode_body body =
      ((body.map fun p => p.1 ++ '=' :: p.2).map fun l => '\n' :: l).flatten := by
    rw [encode_body_eq, List.map_map]
    rfl
  rw [parsedLines, hflat, splitOn_flatten_newline _ hlines]
  have : ∀ l ∈ body.map (fun p => p.1 ++ '=' :: p.2), (!l.isEmpty) = true := by
    intro l hl
    obtain ⟨p, hp, rfl⟩ := List.mem_map.mp hl
    cases hfst : p.1 <;> simp [hfst, List.isEmpty]
  have hstep : ((([] : Str) :: body.map fun p => p.1 ++ '=' :: p.2).filter
      fun l => !l.isEmpty) = ((body.map fun p => p.1 ++ '=' :: p.2).filter
      fun l => !l.isEmpty) := by
    simp [List.filter_cons]
  rw [hstep, List.filter_eq_self.mpr this]

theorem filterMap_splitOnce_lines (body : List (Str × Str))
    (hk : ∀ p ∈ body, '=' ∉ p.1) :
    ((body.map fun p => p.1 ++ '=' :: p.2).filterMap (splitOnce '=')) = body := by
  induction body with
  | nil => rfl
  | cons p ps ih =>
    simp only [List.map_cons, List.filterMap_cons,
      splitOnce_append _ _ (hk p (List.mem_cons_self p ps))]
    rw [ih fun q hq => hk q (List.mem_cons_of_mem p hq)]

theorem lastBinding_eq_none_of_not_mem (ps : List (Str × Str)) (k : Str)
    (h : k ∉ ps.map Prod.fst) : lastBinding ps k = none := by
  induction ps with
  | nil => rfl
  | cons p ps ih =>
    simp only [List.map_cons, List.mem_cons, not_or] at h
    simp only [lastBinding, ih h.2]
    rw [if_neg fun hh => h.1 hh.symm]

theorem lastBinding_nodup (ps : List (Str × Str)) (k : Str)
    (h : (ps.map Prod.fst).Nodup) :
    lastBinding ps k = (ps.find? fun p => decide (p.1 = k)).map Prod.snd := by
  induction ps with
  | nil => rfl
  | cons p ps ih =>
    simp only [List.map_cons, List.nodup_cons] at h
    simp only [lastBinding, List.find?]
    by_cases hp : p.1 = k
    · have : k ∉ ps.map Prod.fst := hp ▸ h.1
      simp [lastBinding_eq_none_of_not_mem ps k this, hp]
    · simp only [decide_eq_true_eq] at *
      rw [ih h.2]
      cases hf : ps.find? fun q => decide (q.1 = k) with
      | none => simp [hp, hf]
      | some q => simp [hp, hf]

/-- The `FromTequilaAttributes` trait of `src/lib.rs`, as a record of the
three capabilities an implementing type provides. -/
structure FromTequilaAttributes (A : Type) where
  from_tequila_attributes : AttributeMap → Except TequilaError A
  wished_attributes : List Str
  requested_attributes : List Str

/-- `send_request` from `src/lib.rs`.  The network round trip is opaque: the
transport outcome (`text()` of the POST, or a transport error) is passed in
as `http`.  The body is encoded exactly as in the source
(`format!("{acc}\n{key}={value}")`) and the response is decoded with
`build_hashmap` before being handed to the binding. -/
def send_request {A : Type} (inst : FromTequilaAttributes A) (route : String)
    (body : List (Str × Str)) (http : Except Unit Str) : Except TequilaError A :=
  match http with
  | .error e => .error (.RequestError e)
  | .ok response =>
    match build_hashmap response with
    | .error e => .error e
    | .ok m => inst.from_tequila_attributes m

/-- `CreateRequestResponse` from `src/lib.rs`. -/
structure CreateRequestResponse where
  key : Str
deriving DecidableEq

/-- The manual `FromTequilaAttributes` impl for `CreateRequestResponse`:
look up `"key"` and fail with `InvalidResponse` when it is absent. -/
def CreateRequestResponse.fromAttributes : FromTequilaAttributes CreateRequestResponse :=
  ⟨fun attributes =>
      match AttributeMap.get? attributes "key".toList with
      | some k => .ok ⟨k⟩
      | none => .error .InvalidResponse,
    [], []⟩

/-- Rust `Vec::join(",")` on a list of strings. -/
def joinSep (sep : Char) : List Str → Str
  | [] => []
  | [x] => x
  | x :: y :: xs => x ++ sep :: joinSep sep (y :: xs)

/-- The body `create_request` builds before calling `send_request`: the three
fixed pairs, then `request`/`wish` when the attribute lists are non-empty,
then the three optional pairs. -/
def create_request_body (return_url service_name : Str)
    (request_attributes wish_attributes : List Str)
    (require allow language : Option Str) : List (Str × Str) :=
  [("urlaccess".toList, return_url),
   ("service".toList, service_name),
   ("mode_auth_check".toList, "1".toList)]
  ++ (if request_attributes.isEmpty then []
      else [("request".toList, joinSep ',' request_attributes)])
  ++ (if wish_attributes.isEmpty then []
      else [("wish".toList, joinSep ',' wish_attributes)])
  ++ (match require with | some r => [("require".toList, r)] | none => [])
  ++ (match allow with | some a => [("allow".toList, a)] | none => [])
  ++ (match language with | some l => [("language".toList, l)] | none => [])

/-- `create_request` from `src/lib.rs`: send the body to `createrequest` and
return the `key` field of the decoded response. -/
def create_request (return_url service_name : Str)
    (request_attributes wish_attributes : List Str)
    (require allow language : Option Str) (http : Except Unit Str) :
    Except TequilaError Str :=
  (send_request CreateRequestResponse.fromAttributes "createrequest"
      (create_request_body return_url service_name request_attributes
        wish_attributes require allow language) http).map CreateRequestResponse.key

/-- `fetch_attributes` from `src/lib.rs`: send `key` and `auth_check` to the
`fetchattributes` route and construct the binding from the decoded response. -/
def fetch_attributes {A : Type} (inst : FromTequilaAttributes A)
    (key auth_check : Str) (http : Except Unit Str) : Except TequilaError A :=
  send_request inst "fetchattributes"
    [("key".toList, key), ("auth_check".toList, auth_check)] http

/-- Typestate marker `WaitingLogin`. -/
inductive WaitingLogin
  | mk

/-- Typestate marker `LoggedIn`. -/
inductive LoggedIn
  | mk

/-- `TequilaRequest<A, S>` from `src/lib.rs` (`PhantomData<S>` becomes the
phantom type parameter `S`). -/
structure TequilaRequest (A : Type) (S : Type) where
  key : Str
  attributes : Option A

/-- `TequilaRequest::<A, WaitingLogin>::fetch_attributes`: consumes the
`WaitingLogin` handle and, on success, produces a `LoggedIn` handle carrying
the same key (the source clones it) and the constructed attributes. -/
def TequilaRequest.fetch_attributes {A : Type} (inst : FromTequilaAttributes A)
    (self : TequilaRequest A WaitingLogin) (auth_check : Str)
    (http : Except Unit Str) : Except TequilaError (TequilaRequest A LoggedIn) :=
  match Tequila.fetch_attributes inst self.key auth_check http with
  | .ok a => .ok ⟨self.key, some a⟩
  | .error e => .error e

/-- Field cardinality classification of `tequila_macros` (`FieldType`):
a bare type is mandatory, `Option<_>` is optional, `Vec<_>` is multivalued. -/
inductive FieldType
  | Other
  | Option
  | Vec
deriving DecidableEq

/-- A field descriptor as `tequila_macros` extracts it from the struct:
optional field name, resolved attribute key, and shape. -/
structure Field where
  name : Option Str
  attr : Str
  ftype : FieldType
deriving DecidableEq

/-- The value a generated field binds at runtime.  Scalar fields (mandatory
and optional) hold a string; `Vec` fields hold a list of strings. -/
inductive FieldValue
  | scalar (value : Str)
  | multi (values : List Str)
deriving DecidableEq

/-- The value the generated `from_tequila_attributes` computes for one field
(`field_variables` in `tequila_macros/src/lib.rs`):
  * `Other`: `attributes.get(key).cloned()` — the `.unwrap()` in the
    assignment is only reached when the key is present, so the default is
    never observed;
  * `Option`: `attributes.get(key).unwrap_or_default()` — the empty string
    when absent;
  * `Vec`: `attributes.get(key).unwrap_or_default().split(',').collect()`. -/
def fieldValue (attributes : AttributeMap) (f : Field) : FieldValue :=
  match f.ftype with
  | .Other => .scalar ((AttributeMap.get? attributes f.attr).getD [])
  | .Option => .scalar ((AttributeMap.get? attributes f.attr).getD [])
  | .Vec => .multi (((AttributeMap.get? attributes f.attr).getD []).splitOn ',')

/-- The `missing` accumulator of the generated `from_tequila_attributes`:
every mandatory (`Other`) field whose key is absent pushes its key, in
declaration order, and the examination continues with the next field. -/
def missingOf (fields : List Field) (attributes : AttributeMap) : List Str :=
  fields.foldl
    (fun missing f =>
      match f.ftype with
      | .Other =>
        if (AttributeMap.get? attributes f.attr).isNone
        then missing ++ [f.attr] else missing
      | _ => missing)
    []

/-- The generated `from_tequila_attributes`: examine every field, then fail
with `MissingAttributes(missing)` when the accumulator is non-empty, and
otherwise assemble the field values in declaration order. -/
def derived_from_tequila_attributes (fields : List Field)
    (attributes : AttributeMap) : Except TequilaError (List FieldValue) :=
  if missingOf fields attributes = []
  then .ok (fields.map (fieldValue attributes))
  else .error (.MissingAttributes (missingOf fields attributes))

/-- The generated `wished_attributes`: keys of `Option` and `Vec` fields in
declaration order. -/
def wished_attributes_gen (fields : List Field) : List Str :=
  (fields.filter fun f =>
    match f.ftype with
    | .Option => true
    | .Vec => true
    | .Other => false).map Field.attr

/-- The generated `requested_attributes`: keys of mandatory fields in
declaration order. -/
def requested_attributes_gen (fields : List Field) : List Str :=
  (fields.filter fun f =>
    match f.ftype with
    | .Other => true
    | _ => false).map Field.attr

/-- The full generated trait implementation for a field list. -/
def derivedBinding (fields : List Field) : FromTequilaAttributes (List FieldValue) :=
  ⟨derived_from_tequila_attributes fields,
    wished_attributes_gen fields,
    requested_attributes_gen fields⟩

/-- `TequilaConfig` from `tequila_macros/src/config.rs` (the server schema
snapshot; `default_languagge` keeps the source spelling). -/
structure TequilaConfig where
  organization : Str
  server : Str
  domain : Str
  manager : Str
  cookies : Str
  support_certificates : Str
  default_languagge : Str
  attributes : List Str
  certificate : Str
deriving DecidableEq

/-- `ConfigError` from `tequila_macros/src/config.rs`; the reqwest and url
error payloads are opaque. -/
inductive ConfigError
  | MissingEntry (entry : Str)
  | Request (cause : Unit)
  | Url (cause : Unit)
deriving DecidableEq

/-- Outcome of the uncached path of `get_config`: the fetch result is stored
as `config.ok()` and a warning is emitted exactly when the fetch failed. -/
def get_config_uncached (fetchResult : Except ConfigError TequilaConfig) :
    Option TequilaConfig × Bool :=
  match fetchResult with
  | .ok c => (some c, false)
  | .error _ => (none, true)

/-- A key-validation diagnostic as emitted by `emit_error!` in the derive
macro: it names the offending key and lists the valid vocabulary. -/
structure Diagnostic where
  invalidKey : Str
  available : List Str
deriving DecidableEq

/-- The key validation of `derive_from_tequila_attributes` (lines 144-155):
only when checking is enabled, the key is known, and a configuration is
available is the key compared against the schema's attribute set; a miss
emits a diagnostic naming the key and the vocabulary. -/
def check_field_key (check_config : Bool) (config : Option TequilaConfig)
    (key : Option Str) : Option Diagnostic :=
  if check_config then
    match key, config with
    | some k, some cfg =>
      if k ∈ cfg.attributes then none else some ⟨k, cfg.attributes⟩
    | _, _ => none
  else none

/-- Program counter of one task running `get_config`:
  * `start`: about to evaluate `CONFIG.get()` (line 61);
  * `fetched`: the cell was empty, `TequilaConfig::fetch` has run (line 64,
    emitting the warning on failure), and `CONFIG.get_or_init` is next
    (line 70);
  * `done`: `get_config` has returned. -/
inductive ThreadPC
  | start
  | fetched
  | done
deriving DecidableEq

/-- Local state of one task: program counter, the fetch result it computed
(`config.ok()`), and the value `get_config` returned to it. -/
structure ThreadState (V : Type) where
  pc : ThreadPC
  localVal : Option V
  observed : Option V
deriving DecidableEq

/-- The `OnceLock` cell plus a counter of how many network fetches ran. -/
structure CacheState (V : Type) where
  cell : Option V
  fetchCount : Nat
deriving DecidableEq

/-- One atomic step of a task running `get_config` against the shared cell:
from `start`, either observe an initialized cell and return, or perform the
fetch; from `fetched`, run `get_or_init` (single assignment: the cell is only
written if still empty) and return its content. -/
def threadStep {V : Type} (r : V) (ts : ThreadState V) (cs : CacheState V) :
    ThreadState V × CacheState V :=
  match ts.pc with
  | .start =>
    match cs.cell with
    | some v => (⟨.done, ts.localVal, some v⟩, cs)
    | none => (⟨.fetched, some r, ts.observed⟩, ⟨cs.cell, cs.fetchCount + 1⟩)
  | .fetched =>
    let newCell := match cs.cell with
      | some v => some v
      | none => ts.localVal
    (⟨.done, ts.localVal, newCell⟩, ⟨newCell, cs.fetchCount⟩)
  | .done => (ts, cs)

/-- Two tasks sharing the `CONFIG` cell. -/
structure SysState (V : Type) where
  t0 : ThreadState V
  t1 : ThreadState V
  cache : CacheState V
deriving DecidableEq

/-- Scheduler step: `false` runs task 0, `true` runs task 1; the fetch
results of the two tasks are `r0` and `r1`. -/
def sysStep {V : Type} (r0 r1 : V) (s : SysState V) (b : Bool) : SysState V :=
  if b then
    let p := threadStep r1 s.t1 s.cache
    ⟨s.t0, p.1, p.2⟩
  else
    let p := threadStep r0 s.t0 s.cache
    ⟨p.1, s.t1, p.2⟩

/-- Run a whole schedule from a state. -/
def sysRun {V : Type} (r0 r1 : V) (sched : List Bool) (s : SysState V) : SysState V :=
  sched.foldl (sysStep r0 r1) s

/-- Initial state: both tasks at `start`, cell uninitialized, no fetches. -/
def sysInit {V : Type} : SysState V :=
  ⟨⟨.start, none, none⟩, ⟨.start, none, none⟩, ⟨none, 0⟩⟩

/-- Invariant: a finished task returned exactly the (initialized) cell
content, and a task past its fetch still holds its fetch result. -/
def CacheInv {V : Type} (s : SysState V) : Prop :=
  (s.t0.pc = .done → s.t0.observed = s.cache.cell ∧ s.t0.observed ≠ none) ∧
  (s.t1.pc = .done → s.t1.observed = s.cache.cell ∧ s.t1.observed ≠ none) ∧
  (s.t0.pc = .fetched → s.t0.localVal ≠ none) ∧
  (s.t1.pc = .fetched → s.t1.localVal ≠ none)

theorem threadStep_preserves {V : Type} (r : V) (ts other : ThreadState V)
    (cs : CacheState V)
    (hts1 : ts.pc = .done → ts.observed = cs.cell ∧ ts.observed ≠ none)
    (hts2 : ts.pc = .fetched → ts.localVal ≠ none)
    (hot1 : other.pc = .done → other.observed = cs.cell ∧ other.observed ≠ none) :
    ((threadStep r ts cs).1.pc = .done →
        (threadStep r ts cs).1.observed = (threadStep r ts cs).2.cell ∧
        (threadStep r ts cs).1.observed ≠ none) ∧
    ((threadStep r ts cs).1.pc = .fetched → (threadStep r ts cs).1.localVal ≠ none) ∧
    (other.pc = .done →
        other.observed = (threadStep r ts cs).2.cell ∧ other.observed ≠ none) := by
  cases hpc : ts.pc with
  | start =>
    cases hcell : cs.cell with
    | some v =>
      refine ⟨?_, ?_, ?_⟩
      · intro _
        exact ⟨by simp [threadStep, hpc, hcell], by simp [threadStep, hpc, hcell]⟩
      · intro hcon
        simp [threadStep, hpc, hcell] at hcon
      · intro hdone
        have := hot1 hdone
        simpa [threadStep, hpc, hcell] using this
    | none =>
      refine ⟨?_, ?_, ?_⟩
      · intro hcon
        simp [threadStep, hpc, hcell] at hcon
      · intro _
        simp [threadStep, hpc, hcell]
      · intro hdone
        have := hot1 hdone
        simpa [threadStep, hpc, hcell] using this
  | fetched =>
    have hloc := hts2 hpc
    cases hcell : cs.cell with
    | some v =>
      refine ⟨?_, ?_, ?_⟩
      · intro _
        exact ⟨by simp [threadStep, hpc, hcell], by simp [threadStep, hpc, hcell]⟩
      · intro hcon
        simp [threadStep, hpc, hcell] at hcon
      · intro hdone
        have := hot1 hdone
        simpa [threadStep, hpc, hcell] using this
    | none =>
      refine ⟨?_, ?_, ?_⟩
      · intro _
        refine ⟨by simp [threadStep, hpc, hcell], ?_⟩
        simpa [threadStep, hpc, hcell] using hloc
      · intro hcon
        simp [threadStep, hpc, hcell] at hcon
      · intro hdone
        have hobs := hot1 hdone
        rw [hcell] at hobs
        exact absurd hobs.1 hobs.2
  | done =>
    refine ⟨?_, ?_, ?_⟩
    · intro _
      simpa [threadStep, hpc] using hts1 hpc
    · intro hcon
      simp [threadStep, hpc] at hcon
    · intro hdone
      have := hot1 hdone
      simpa [threadStep, hpc] using this

theorem sysStep_preserves {V : Type} (r0 r1 : V) (s : SysState V) (b : Bool)
    (h : CacheInv s) : CacheInv (sysStep r0 r1 s b) := by
  obtain ⟨h0, h1, h2, h3⟩ := h
  cases b with
  | false =>
    have := threadStep_preserves r0 s.t0 s.t1 s.cache h0 h2 h1
    exact ⟨this.1, this.2.2, this.2.1, h3⟩
  | true =>
    have := threadStep_preserves r1 s.t1 s.t0 s.cache h1 h3 h0
    exact ⟨this.2.2, this.1, h2, this.2.1⟩

theorem sysRun_preserves {V : Type} (r0 r1 : V) (sched : List Bool)
    (s : SysState V) (h : CacheInv s) : CacheInv (sysRun r0 r1 sched s) := by
  induction sched generalizing s with
  | nil => exact h
  | cons b bs ih => exact ih _ (sysStep_preserves r0 r1 s b h)

theorem missingOf_eq (fields : List Field) (m : AttributeMap) :
    missingOf fields m =
      (fields.filter fun f =>
        match f.ftype with
        | .Other => (AttributeMap.get? m f.attr).isNone
        | _ => false).map Field.attr := by
  have aux : ∀ (fs : List Field) (acc : List Str),
      fs.foldl
        (fun missing f =>
          match f.ftype with
          | .Other =>
            if (AttributeMap.get? m f.attr).isNone
            then missing ++ [f.attr] else missing
          | _ => missing) acc =
      acc ++ (fs.filter fun f =>
        match f.ftype with
        | .Other => (AttributeMap.get? m f.attr).isNone
        | _ => false).map Field.attr := by
    intro fs
    induction fs with
    | nil => intro acc; simp
    | cons f fs ih =>
      intro acc
      rw [List.foldl_cons, ih, List.filter_cons]
      cases hft : f.ftype with
      | Other =>
        by_cases hn : (AttributeMap.get? m f.attr).isNone
        · simp [hft, hn]
        · simp [hft, hn]
      | Option => simp [hft]
      | Vec => simp [hft]
  simpa [missingOf] using aux fields []

theorem mem_missingOf (fields : List Field) (m : AttributeMap) (k : Str) :
    k ∈ missingOf fields m ↔
      ∃ f ∈ fields, f.ftype = .Other ∧ f.attr = k ∧
        AttributeMap.get? m k = none := by
  rw [missingOf_eq]
  simp only [List.mem_map, List.mem_filter]
  constructor
  · rintro ⟨f, ⟨hf, hcond⟩, rfl⟩
    cases hft : f.ftype with
    | Other =>
      rw [hft] at hcond
      exact ⟨f, hf, hft, rfl, Option.isNone_iff_eq_none.mp hcond⟩
    | Option => rw [hft] at hcond; cases hcond
    | Vec => rw [hft] at hcond; cases hcond
  · rintro ⟨f, hf, hft, rfl, hnone⟩
    exact ⟨f, ⟨hf, by rw [hft]; simpa using hnone⟩, rfl⟩

theorem derived_error_eq (fields : List Field) (m : AttributeMap)
    (h : missingOf fields m ≠ []) :
    derived_from_tequila_attributes fields m =
      .error (.MissingAttributes (missingOf fields m)) := by
  unfold derived_from_tequila_attributes
  rw [if_neg h]

theorem derived_ok_values (fields : List Field) (m : AttributeMap) :
    ∀ vals, derived_from_tequila_attributes fields m = .ok vals →
      vals = fields.map (fieldValue m) := by
  intro vals h
  unfold derived_from_tequila_attributes at h
  by_cases hm : missingOf fields m = []
  · rw [if_pos hm] at h
    exact (Except.ok.inj h).symm
  · rw [if_neg hm] at h
    cases h

theorem derived_ok_iff (fields : List Field) (m : AttributeMap) :
    (∃ vals, derived_from_tequila_attributes fields m = .ok vals) ↔
      ∀ f ∈ fields, f.ftype = .Other → (AttributeMap.get? m f.attr).isSome := by
  constructor
  · rintro ⟨vals, hv⟩ f hf hft
    by_contra hns
    have hnone : AttributeMap.get? m f.attr = none :=
      Option.not_isSome_iff_eq_none.mp hns
    have hmem : f.attr ∈ missingOf fields m :=
      (mem_missingOf fields m f.attr).mpr ⟨f, hf, hft, rfl, hnone⟩
    have hm : missingOf fields m ≠ [] := by
      intro hnil
      rw [hnil] at hmem
      cases hmem
    rw [derived_error_eq fields m hm] at hv
    cases hv
  · intro hall
    have hm : missingOf fields m = [] := by
      by_contra hne
      obtain ⟨k, hk⟩ := List.exists_mem_of_ne_nil _ hne
      obtain ⟨f, hf, hft, rfl, hnone⟩ := (mem_missingOf fields m k).mp hk
      have := hall f hf hft
      rw [hnone] at this
      cases this
    exact ⟨_, by unfold derived_from_tequila_attributes; rw [if_pos hm]⟩

/-- C1: for every generated Binding and attribute map, the generated
`from_tequila_attributes` succeeds iff no mandatory key is absent, and on
failure it fails with `MissingAttributes` carrying exactly the set of all
absent mandatory keys (never only the first one). -/
theorem construct_missing_spec (fields : List Field) (m : AttributeMap) :
    ((∃ vals, derived_from_tequila_attributes fields m = .ok vals) ↔
      ∀ f ∈ fields, f.ftype = .Other → (AttributeMap.get? m f.attr).isSome) ∧
    (∀ e, derived_from_tequila_attributes fields m = .error e →
      ∃ l, e = .MissingAttributes l ∧ l ≠ [] ∧
        ∀ k, k ∈ l ↔ ∃ f ∈ fields, f.ftype = .Other ∧ f.attr = k ∧
          AttributeMap.get? m k = none) := by
  refine ⟨derived_ok_iff fields m, ?_⟩
  intro e he
  by_cases hm : missingOf fields m = []
  · unfold derived_from_tequila_attributes at he
    rw [if_pos hm] at he
    cases he
  · rw [derived_error_eq fields m hm] at he
    have he' : TequilaError.MissingAttributes (missingOf fields m) = e :=
      Except.error.inj he
    exact ⟨missingOf fields m, he'.symm, hm, fun k => mem_missingOf fields m k⟩

/-- Witness for C1: with mandatory keys k1, k2, k3 and a map containing only
k1, construction fails and the carried list holds exactly k2 and k3. -/
theorem construct_missing_spec_witness :
    ∃ l, TequilaError.MissingAttributes ["k2".toList, "k3".toList] =
        .MissingAttributes l ∧ l ≠ [] ∧
      ∀ k, k ∈ l ↔ ∃ f ∈ [Field.mk (some "k1".toList) "k1".toList .Other,
          Field.mk (some "k2".toList) "k2".toList .Other,
          Field.mk (some "k3".toList) "k3".toList .Other],
        f.ftype = .Other ∧ f.attr = k ∧
          AttributeMap.get? [("k1".toList, "v".toList)] k = none :=
  (construct_missing_spec
    [Field.mk (some "k1".toList) "k1".toList .Other,
     Field.mk (some "k2".toList) "k2".toList .Other,
     Field.mk (some "k3".toList) "k3".toList .Other]
    [("k1".toList, "v".toList)]).2
    (TequilaError.MissingAttributes ["k2".toList, "k3".toList]) rfl

/-- C2: `build_hashmap` fails with `InvalidResponse` iff some non-empty line
contains no `=`; otherwise it returns the map binding, for each non-empty
line split at its first `=`, the key to the value, a later occurrence of a
key overwriting an earlier one; the empty response gives the empty map. -/
theorem build_hashmap_spec (s : Str) :
    (build_hashmap s = .error TequilaError.InvalidResponse ↔
      ∃ l ∈ parsedLines s, '=' ∉ l) ∧
    ((∀ l ∈ parsedLines s, '=' ∈ l) →
      ∃ m, build_hashmap s = .ok m ∧
        ∀ k, AttributeMap.get? m k = lastBinding (pairsOf s) k) ∧
    build_hashmap [] = .ok [] :=
  ⟨(build_hashmap_spec_aux s).1, (build_hashmap_spec_aux s).2, rfl⟩

/-- Witness for C2: decoding `"a=1\n\nb=2"` (blank line ignored) succeeds
with the expected bindings. -/
theorem build_hashmap_spec_witness :
    ∃ m, build_hashmap ("a=1\n\nb=2".toList) = .ok m ∧
      ∀ k, AttributeMap.get? m k = lastBinding (pairsOf ("a=1\n\nb=2".toList)) k :=
  (build_hashmap_spec ("a=1\n\nb=2".toList)).2.1 (by decide)

/-- Counterexample for C3 as stated: a `Vec` field whose key is absent is
constructed as the one-element list containing the empty string, not as the
empty list — `unwrap_or_default` yields `""` and `"".split(',')` is `[""]`. -/
theorem multivalued_absent_cex :
    derived_from_tequila_attributes
        [Field.mk (some "roles".toList) "roles".toList .Vec] [] =
      .ok [.multi [[]]] ∧
    FieldValue.multi [([] : Str)] ≠ .multi [] :=
  ⟨rfl, by decide⟩

/-- C3 amended: a `Vec` field is constructed by splitting
`attributes.get(key).unwrap_or_default()` on `','`: when the key is present
the value is split on `','` into an ordered sequence of substrings, and when
the key is absent the result is the one-element sequence containing the
empty string (not the empty sequence); the constructed record holds these
values in declaration order. -/
theorem multivalued_field_spec (fields : List Field) (m : AttributeMap) :
    (∀ f ∈ fields, f.ftype = .Vec →
      (AttributeMap.get? m f.attr = none → fieldValue m f = .multi [[]]) ∧
      (∀ v, AttributeMap.get? m f.attr = some v →
        fieldValue m f = .multi (v.splitOn ','))) ∧
    (∀ vals, derived_from_tequila_attributes fields m = .ok vals →
      vals = fields.map (fieldValue m)) := by
  refine ⟨?_, derived_ok_values fields m⟩
  intro f _ hft
  constructor
  · intro hnone
    simp [fieldValue, hft, hnone]
  · intro v hv
    simp [fieldValue, hft, hv]

/-- Witness for C3 (amended): a present value `"a,b,c"` is split into
`["a","b","c"]`. -/
theorem multivalued_field_spec_witness :
    fieldValue [("roles".toList, "a,b,c".toList)]
        (Field.mk (some "roles".toList) "roles".toList .Vec) =
      .multi ["a".toList, "b".toList, "c".toList] := by
  have h := ((multivalued_field_spec
      [Field.mk (some "roles".toList) "roles".toList .Vec]
      [("roles".toList, "a,b,c".toList)]).1
    (Field.mk (some "roles".toList) "roles".toList .Vec)
    (by decide) rfl).2 ("a,b,c".toList) (by decide)
  exact h.trans (by decide)

/-- C4: an `Option` field is constructed as the empty string when its key is
absent and as the raw value when present, and construction succeeds whenever
every mandatory key is present, whatever optional keys are absent. -/
theorem optional_field_spec (fields : List Field) (m : AttributeMap) :
    (∀ f ∈ fields, f.ftype = .Option →
      (AttributeMap.get? m f.attr = none → fieldValue m f = .scalar []) ∧
      (∀ v, AttributeMap.get? m f.attr = some v → fieldValue m f = .scalar v)) ∧
    ((∀ f ∈ fields, f.ftype = .Other → (AttributeMap.get? m f.attr).isSome) →
      ∃ vals, derived_from_tequila_attributes fields m = .ok vals) := by
  refine ⟨?_, fun h => (derived_ok_iff fields m).mpr h⟩
  intro f _ hft
  constructor
  · intro hnone
    simp [fieldValue, hft, hnone]
  · intro v hv
    simp [fieldValue, hft, hv]

/-- Witness for C4: an absent optional key yields the empty string and does
not prevent success when the mandatory key is present. -/
theorem optional_field_spec_witness :
    fieldValue [("uid".toList, "1".toList)]
        (Field.mk (some "username".toList) "username".toList .Option) =
      .scalar [] ∧
    ∃ vals, derived_from_tequila_attributes
        [Field.mk (some "uid".toList) "uid".toList .Other,
         Field.mk (some "username".toList) "username".toList .Option]
        [("uid".toList, "1".toList)] = .ok vals := by
  constructor
  · exact ((optional_field_spec
        [Field.mk (some "username".toList) "username".toList .Option]
        [("uid".toList, "1".toList)]).1
      (Field.mk (some "username".toList) "username".toList .Option)
      (by decide) rfl).1 (by decide)
  · exact (optional_field_spec
        [Field.mk (some "uid".toList) "uid".toList .Other,
         Field.mk (some "username".toList) "username".toList .Option]
        [("uid".toList, "1".toList)]).2 (by decide)

/-- C10: a `Vec` field whose key is present with the empty-string value is
constructed as the one-element sequence containing the empty string, which
is the same value an absent key produces, so the two cases are
indistinguishable in the constructed record. -/
theorem multivalued_empty_value_spec (f : Field) (m m2 : AttributeMap)
    (hft : f.ftype = .Vec) (h1 : AttributeMap.get? m f.attr = some [])
    (h2 : AttributeMap.get? m2 f.attr = none) :
    fieldValue m f = .multi [[]] ∧ fieldValue m2 f = fieldValue m f ∧
    ∀ fields vals, derived_from_tequila_attributes fields m = .ok vals →
      vals = fields.map (fieldValue m) := by
  refine ⟨?_, ?_, fun fields => derived_ok_values fields m⟩
  · simp [fieldValue, hft, h1]
  · simp [fieldValue, hft, h1, h2]

/-- Witness for C10: key `roles` bound to `""` versus absent entirely. -/
theorem multivalued_empty_value_spec_witness :
    fieldValue [("roles".toList, ([] : Str))]
        (Field.mk (some "roles".toList) "roles".toList .Vec) = .multi [[]] ∧
    fieldValue []
        (Field.mk (some "roles".toList) "roles".toList .Vec) =
      fieldValue [("roles".toList, ([] : Str))]
        (Field.mk (some "roles".toList) "roles".toList .Vec) := by
  have h := multivalued_empty_value_spec
    (Field.mk (some "roles".toList) "roles".toList .Vec)
    [("roles".toList, ([] : Str))] [] rfl (by decide) (by decide)
  exact ⟨h.1, h.2.1⟩

/-- C8: encoding pairwise-distinct keyed pairs (keys free of `=` and line
feeds, values free of line feeds) and decoding the result succeeds and
recovers exactly the mapping of those pairs. -/
theorem encode_decode_roundtrip (ps : List (Str × Str))
    (hnodup : (ps.map Prod.fst).Nodup)
    (hkeyEq : ∀ p ∈ ps, '=' ∉ p.1)
    (hkeyNl : ∀ p ∈ ps, '\n' ∉ p.1)
    (hvalNl : ∀ p ∈ ps, '\n' ∉ p.2) :
    ∃ m, build_hashmap (encode_body ps) = .ok m ∧
      ∀ k, AttributeMap.get? m k =
        (ps.find? fun p => decide (p.1 = k)).map Prod.snd := by
  have hlines : parsedLines (encode_body ps) = ps.map fun p => p.1 ++ '=' :: p.2 :=
    parsedLines_encode ps hkeyNl hvalNl
  have hall : ∀ l ∈ parsedLines (encode_body ps), (splitOnce '=' l).isSome := by
    rw [hlines]
    intro l hl
    obtain ⟨p, hp, rfl⟩ := List.mem_map.mp hl
    rw [splitOnce_append _ _ (hkeyEq p hp)]
    rfl
  have hbh : build_hashmap (encode_body ps) =
      ((parsedLines (encode_body ps)).map (splitOnce '=')).foldl insertLine (.ok []) := rfl
  rw [hbh, foldl_insertLine_some _ _ hall]
  refine ⟨_, rfl, ?_⟩
  intro k
  rw [hlines, filterMap_splitOnce_lines ps hkeyEq, get?_foldl_insert,
    lastBinding_nodup ps k hnodup]
  cases ps.find? fun p => decide (p.1 = k) <;> simp [AttributeMap.get?]

/-- Witness for C8: `encode([("a","1"),("b","2")]) = "\na=1\nb=2"`, the
round trip on those pairs, and `decode("a=1\nb=2\n")` with its trailing
line feed ignored. -/
theorem encode_decode_roundtrip_witness :
    encode_body [("a".toList, "1".toList), ("b".toList, "2".toList)] =
      "\na=1\nb=2".toList ∧
    (∃ m, build_hashmap (encode_body
        [("a".toList, "1".toList), ("b".toList, "2".toList)]) = .ok m ∧
      ∀ k, AttributeMap.get? m k =
        ([("a".toList, "1".toList), ("b".toList, "2".toList)].find?
          fun p => decide (p.1 = k)).map Prod.snd) ∧
    build_hashmap "a=1\nb=2\n".toList =
      .ok [("a".toList, "1".toList), ("b".toList, "2".toList)] :=
  ⟨by decide,
   encode_decode_roundtrip [("a".toList, "1".toList), ("b".toList, "2".toList)]
     (by decide) (by decide) (by decide) (by decide),
   rfl⟩

theorem not_mem_joinSep (sep c : Char) (hc : ¬ c = sep) :
    ∀ l : List Str, (∀ x ∈ l, c ∉ x) → c ∉ joinSep sep l := by
  intro l
  induction l with
  | nil =>
    intro _ h
    simpa [joinSep] using h
  | cons x xs ih =>
    intro h hmem
    cases xs with
    | nil => exact h x (List.mem_cons_self x []) hmem
    | cons y ys =>
      rw [joinSep] at hmem
      rcases List.mem_append.mp hmem with h1 | h2
      · exact h x (List.mem_cons_self x _) h1
      · rcases List.mem_cons.mp h2 with h3 | h4
        · exact hc h3
        · exact ih (fun z hz => h z (List.mem_cons_of_mem x hz)) h4

theorem mem_if_nil {α : Type} {c : Prop} [Decidable c] {p x : α}
    (h : p ∈ if c then ([] : List α) else [x]) : p = x := by
  split at h
  · cases h
  · simpa using h

theorem create_request_body_mem (return_url service_name : Str)
    (request_attributes wish_attributes : List Str)
    (require allow language : Option Str) (p : Str × Str)
    (hp : p ∈ create_request_body return_url service_name request_attributes
      wish_attributes require allow language) :
    p = ("urlaccess".toList, return_url) ∨
    p = ("service".toList, service_name) ∨
    p = ("mode_auth_check".toList, "1".toList) ∨
    p = ("request".toList, joinSep ',' request_attributes) ∨
    p = ("wish".toList, joinSep ',' wish_attributes) ∨
    (∃ r, require = some r ∧ p = ("require".toList, r)) ∨
    (∃ a, allow = some a ∧ p = ("allow".toList, a)) ∨
    (∃ l, language = some l ∧ p = ("language".toList, l)) := by
  simp only [create_request_body, List.mem_append] at hp
  rcases hp with ((((hp | hp) | hp) | hp) | hp) | hp
  · simp only [List.mem_cons, List.not_mem_nil, or_false] at hp
    rcases hp with hp | hp | hp
    · exact Or.inl hp
    · exact Or.inr (Or.inl hp)
    · exact Or.inr (Or.inr (Or.inl hp))
  · exact Or.inr (Or.inr (Or.inr (Or.inl (mem_if_nil hp))))
  · exact Or.inr (Or.inr (Or.inr (Or.inr (Or.inl (mem_if_nil hp)))))
  · cases hr : require with
    | none => rw [hr] at hp; cases hp
    | some r =>
      rw [hr] at hp
      exact Or.inr (Or.inr (Or.inr (Or.inr (Or.inr (Or.inl
        ⟨r, rfl, List.mem_singleton.mp hp⟩)))))
  · cases ha : allow with
    | none => rw [ha] at hp; cases hp
    | some a =>
      rw [ha] at hp
      exact Or.inr (Or.inr (Or.inr (Or.inr (Or.inr (Or.inr (Or.inl
        ⟨a, rfl, List.mem_singleton.mp hp⟩))))))
  · cases hl : language with
    | none => rw [hl] at hp; cases hp
    | some l =>
      rw [hl] at hp
      exact Or.inr (Or.inr (Or.inr (Or.inr (Or.inr (Or.inr (Or.inr
        ⟨l, rfl, List.mem_singleton.mp hp⟩))))))

theorem create_request_body_noNl (return_url service_name : Str)
    (request_attributes wish_attributes : List Str)
    (require allow language : Option Str)
    (hrunl : '\n' ∉ return_url) (hsnl : '\n' ∉ service_name)
    (hreq : ∀ a ∈ request_attributes, '\n' ∉ a)
    (hwish : ∀ a ∈ wish_attributes, '\n' ∉ a)
    (hreqr : ∀ r, require = some r → '\n' ∉ r)
    (hallow : ∀ a, allow = some a → '\n' ∉ a)
    (hlang : ∀ l, language = some l → '\n' ∉ l) :
    (∀ p ∈ create_request_body return_url service_name request_attributes
        wish_attributes require allow language, '\n' ∉ p.1) ∧
    (∀ p ∈ create_request_body return_url service_name request_attributes
        wish_attributes require allow language, '\n' ∉ p.2) := by
  have hjr : '\n' ∉ joinSep ',' request_attributes :=
    not_mem_joinSep ',' '\n' (by decide) request_attributes hreq
  have hjw : '\n' ∉ joinSep ',' wish_attributes :=
    not_mem_joinSep ',' '\n' (by decide) wish_attributes hwish
  constructor
  · intro p hp
    rcases create_request_body_mem _ _ _ _ _ _ _ p hp with
      rfl | rfl | rfl | rfl | rfl | ⟨r, _, rfl⟩ | ⟨a, _, rfl⟩ | ⟨l, _, rfl⟩
    · show '\n' ∉ "urlaccess".toList
      decide
    · show '\n' ∉ "service".toList
      decide
    · show '\n' ∉ "mode_auth_check".toList
      decide
    · show '\n' ∉ "request".toList
      decide
    · show '\n' ∉ "wish".toList
      decide
    · show '\n' ∉ "require".toList
      decide
    · show '\n' ∉ "allow".toList
      decide
    · show '\n' ∉ "language".toList
      decide
  · intro p hp
    rcases create_request_body_mem _ _ _ _ _ _ _ p hp with
      rfl | rfl | rfl | rfl | rfl | ⟨r, hr, rfl⟩ | ⟨a, ha, rfl⟩ | ⟨l, hl, rfl⟩
    · exact hrunl
    · exact hsnl
    · decide
    · exact hjr
    · exact hjw
    · exact hreqr r hr
    · exact hallow a ha
    · exact hlang l hl

/-- C5: the body sent to `createrequest` consists, in order, of the lines
`urlaccess=`, `service=`, `mode_auth_check=1`, then `request=` exactly when
the request list is non-empty, `wish=` exactly when the wish list is
non-empty, then `require`/`allow`/`language` lines exactly when supplied;
the call returns `Ok(k)` exactly when the decoded response binds `"key"` to
`k`, and `InvalidResponse` when the decoded response has no `"key"`. -/
theorem create_request_spec (return_url service_name : Str)
    (request_attributes wish_attributes : List Str)
    (require allow language : Option Str) (http : Except Unit Str)
    (hrunl : '\n' ∉ return_url) (hsnl : '\n' ∉ service_name)
    (hreq : ∀ a ∈ request_attributes, '\n' ∉ a)
    (hwish : ∀ a ∈ wish_attributes, '\n' ∉ a)
    (hreqr : ∀ r, require = some r → '\n' ∉ r)
    (hallow : ∀ a, allow = some a → '\n' ∉ a)
    (hlang : ∀ l, language = some l → '\n' ∉ l) :
    parsedLines (encode_body (create_request_body return_url service_name
        request_attributes wish_attributes require allow language)) =
      ["urlaccess".toList ++ '=' :: return_url,
       "service".toList ++ '=' :: service_name,
       "mode_auth_check=1".toList]
      ++ (if request_attributes.isEmpty then []
          else ["request".toList ++ '=' :: joinSep ',' request_attributes])
      ++ (if wish_attributes.isEmpty then []
          else ["wish".toList ++ '=' :: joinSep ',' wish_attributes])
      ++ (match require with
          | some r => ["require".toList ++ '=' :: r]
          | none => [])
      ++ (match allow with
          | some a => ["allow".toList ++ '=' :: a]
          | none => [])
      ++ (match language with
          | some l => ["language".toList ++ '=' :: l]
          | none => []) ∧
    (∀ k, create_request return_url service_name request_attributes
        wish_attributes require allow language http = .ok k ↔
      ∃ resp m, http = .ok resp ∧ build_hashmap resp = .ok m ∧
        AttributeMap.get? m "key".toList = some k) ∧
    (∀ resp m, http = .ok resp → build_hashmap resp = .ok m →
      AttributeMap.get? m "key".toList = none →
      create_request return_url service_name request_attributes
        wish_attributes require allow language http = .error .InvalidResponse) := by
  obtain ⟨hk, hv⟩ := create_request_body_noNl return_url service_name
    request_attributes wish_attributes require allow language
    hrunl hsnl hreq hwish hreqr hallow hlang
  refine ⟨?_, ?_, ?_⟩
  · rw [parsedLines_encode _ hk hv]
    rcases require with _ | r <;> rcases allow with _ | a <;> rcases language with _ | lng <;>
      by_cases h1 : request_attributes.isEmpty <;> by_cases h2 : wish_attributes.isEmpty <;>
        simp [create_request_body, h1, h2]
  · intro k
    constructor
    · intro h
      cases http with
      | error e => simp [create_request, send_request, Except.map] at h
      | ok resp =>
        cases hbm : build_hashmap resp with
        | error e =>
          simp [create_request, send_request, hbm, Except.map] at h
        | ok m =>
          cases hg : AttributeMap.get? m "key".toList with
          | none =>
            have hg' : AttributeMap.get? m ['k', 'e', 'y'] = none := hg
            simp [create_request, send_request,
              CreateRequestResponse.fromAttributes, hbm, hg', Except.map] at h
          | some kk =>
            have hg' : AttributeMap.get? m ['k', 'e', 'y'] = some kk := hg
            simp [create_request, send_request,
              CreateRequestResponse.fromAttributes, hbm, hg', Except.map] at h
            exact ⟨resp, m, rfl, hbm, h ▸ hg⟩
    · rintro ⟨resp, m, rfl, hbm, hg⟩
      have hg' : AttributeMap.get? m ['k', 'e', 'y'] = some _ := hg
      simp [create_request, send_request,
        CreateRequestResponse.fromAttributes, hbm, hg', Except.map]
  · intro resp m hhttp hbm hg
    subst hhttp
    have hg' : AttributeMap.get? m ['k', 'e', 'y'] = none := hg
    simp [create_request, send_request,
      CreateRequestResponse.fromAttributes, hbm, hg', Except.map]

/-- Witness for C5 (the end-to-end example): against a transport returning
`"key=ABC123"`, `create_request` yields `"ABC123"`. -/
theorem create_request_spec_witness :
    create_request "https://example.org/cb".toList "Demo".toList
        ["uniqueid".toList] ["username".toList] none none none
        (.ok "key=ABC123".toList) = .ok "ABC123".toList := by
  have h := (create_request_spec "https://example.org/cb".toList "Demo".toList
      ["uniqueid".toList] ["username".toList] none none none
      (.ok "key=ABC123".toList)
      (by decide) (by decide) (by decide) (by decide)
      (fun r hr => nomatch hr) (fun a ha => nomatch ha)
      (fun l hl => nomatch hl)).2.1 "ABC123".toList
  exact h.mpr ⟨"key=ABC123".toList, [("key".toList, "ABC123".toList)], rfl, rfl, rfl⟩

/-- C6: the typed fetch transition on a `WaitingLogin` handle yields, on
success, a `LoggedIn` handle with the unchanged request key whose attributes
are the record constructed from the decoded response; on any failure it
returns that error and produces no `LoggedIn` handle. -/
theorem fetch_transition_spec {A : Type} (inst : FromTequilaAttributes A)
    (self : TequilaRequest A WaitingLogin) (auth_check : Str)
    (http : Except Unit Str) :
    (∀ r, TequilaRequest.fetch_attributes inst self auth_check http = .ok r →
      r.key = self.key ∧
      ∃ a, Tequila.fetch_attributes inst self.key auth_check http = .ok a ∧
        r.attributes = some a) ∧
    (∀ e, Tequila.fetch_attributes inst self.key auth_check http = .error e →
      TequilaRequest.fetch_attributes inst self auth_check http = .error e) ∧
    (∀ resp m a, http = .ok resp → build_hashmap resp = .ok m →
      inst.from_tequila_attributes m = .ok a →
      TequilaRequest.fetch_attributes inst self auth_check http =
        .ok ⟨self.key, some a⟩) := by
  refine ⟨?_, ?_, ?_⟩
  · intro r hr
    cases hf : Tequila.fetch_attributes inst self.key auth_check http with
    | ok a =>
      have heq : TequilaRequest.fetch_attributes inst self auth_check http =
          .ok ⟨self.key, some a⟩ := by
        simp [TequilaRequest.fetch_attributes, hf]
      rw [heq] at hr
      have hr' := Except.ok.inj hr
      refine ⟨?_, a, rfl, ?_⟩
      · rw [← hr']
      · rw [← hr']
    | error e =>
      simp [TequilaRequest.fetch_attributes, hf] at hr
  · intro e he
    simp [TequilaRequest.fetch_attributes, he]
  · intro resp m a hhttp hbm ha
    subst hhttp
    have hf : Tequila.fetch_attributes inst self.key auth_check (.ok resp) = .ok a := by
      simp [Tequila.fetch_attributes, send_request, hbm, ha]
    simp [TequilaRequest.fetch_attributes, hf]

/-- Witness for C6: fetching with a stub response `"uniqueid=123456\nusername=jdoe"`
for a two-mandatory-field binding keeps the request key and constructs the
two attribute values in order. -/
theorem fetch_transition_spec_witness :
    TequilaRequest.fetch_attributes
        (derivedBinding [Field.mk (some "uniqueid".toList) "uniqueid".toList .Other,
          Field.mk (some "username".toList) "username".toList .Other])
        ⟨"ABC123".toList, none⟩ "tok".toList
        (.ok "uniqueid=123456\nusername=jdoe".toList) =
      .ok ⟨"ABC123".toList,
        some [.scalar "123456".toList, .scalar "jdoe".toList]⟩ :=
  (fetch_transition_spec
      (derivedBinding [Field.mk (some "uniqueid".toList) "uniqueid".toList .Other,
        Field.mk (some "username".toList) "username".toList .Other])
      ⟨"ABC123".toList, none⟩ "tok".toList
      (.ok "uniqueid=123456\nusername=jdoe".toList)).2.2
    "uniqueid=123456\nusername=jdoe".toList
    [("uniqueid".toList, "123456".toList), ("username".toList, "jdoe".toList)]
    [.scalar "123456".toList, .scalar "jdoe".toList] rfl rfl rfl

/-- C7: a key-validation diagnostic is emitted iff checking is enabled, the
configuration was fetched successfully, and the key is not in the schema's
attribute set; the diagnostic names the key and lists the vocabulary; when
the fetch (or parse) fails, a warning is emitted and validation is skipped. -/
theorem key_validation_spec (check_config : Bool)
    (fetchResult : Except ConfigError TequilaConfig) (key : Str) :
    ((check_field_key check_config (get_config_uncached fetchResult).1
        (some key)).isSome ↔
      check_config = true ∧ ∃ c, fetchResult = .ok c ∧ key ∉ c.attributes) ∧
    (∀ d, check_field_key check_config (get_config_uncached fetchResult).1
        (some key) = some d →
      d.invalidKey = key ∧ ∃ c, fetchResult = .ok c ∧ d.available = c.attributes) ∧
    (∀ e, fetchResult = .error e →
      (get_config_uncached fetchResult).2 = true ∧
      check_field_key check_config (get_config_uncached fetchResult).1
        (some key) = none) := by
  cases fetchResult with
  | ok c =>
    by_cases hmem : key ∈ c.attributes <;> cases check_config <;>
      simp [check_field_key, get_config_uncached, hmem]
  | error e =>
    cases check_config <;> simp [check_field_key, get_config_uncached]

/-- Witness for C7: a failed fetch yields the warning and no diagnostic. -/
theorem key_validation_spec_witness :
    (get_config_uncached (.error (ConfigError.Request ()))).2 = true ∧
    check_field_key true (get_config_uncached (.error (ConfigError.Request ()))).1
      (some "uniqueid".toList) = none :=
  (key_validation_spec true (.error (ConfigError.Request ()))
    "uniqueid".toList).2.2 (ConfigError.Request ()) rfl

/-- Counterexample for C9 as stated: with the schedule that lets both tasks
run the initial `CONFIG.get()` check before either initializes the cell,
both perform the network fetch — the fetch count reaches 2, refuting
"no second network fetch occurs". -/
theorem config_cache_double_fetch_cex :
    (sysRun (none : Option TequilaConfig) none [false, true, false, true]
      sysInit).cache.fetchCount = 2 ∧
    (sysRun (none : Option TequilaConfig) none [false, true, false, true]
      sysInit).t0.pc = .done ∧
    (sysRun (none : Option TequilaConfig) none [false, true, false, true]
      sysInit).t1.pc = .done ∧
    ¬ (sysRun (none : Option TequilaConfig) none [false, true, false, true]
      sysInit).cache.fetchCount ≤ 1 := by
  refine ⟨rfl, rfl, rfl, ?_⟩
  rw [show (sysRun (none : Option TequilaConfig) none [false, true, false, true]
    sysInit).cache.fetchCount = 2 from rfl]
  decide

/-- C9 amended: the `OnceLock` cell is written at most once, so under every
interleaving all first-time callers of `get_config` that complete observe
the same initialized cached value; however, because the fetch runs between
the initial emptiness check and `get_or_init`, a racing second caller may
perform a duplicate network fetch. -/
theorem config_cache_agreement (r0 r1 : Option TequilaConfig) (sched : List Bool)
    (h0 : (sysRun r0 r1 sched sysInit).t0.pc = .done)
    (h1 : (sysRun r0 r1 sched sysInit).t1.pc = .done) :
    (sysRun r0 r1 sched sysInit).t0.observed =
      (sysRun r0 r1 sched sysInit).t1.observed ∧
    (sysRun r0 r1 sched sysInit).t0.observed =
      (sysRun r0 r1 sched sysInit).cache.cell ∧
    (sysRun r0 r1 sched sysInit).t0.observed ≠ none := by
  have hinit : CacheInv (sysInit : SysState (Option TequilaConfig)) := by
    unfold CacheInv
    refine ⟨?_, ?_, ?_, ?_⟩ <;> intro h <;> simp [sysInit] at h
  have hinv : CacheInv (sysRun r0 r1 sched sysInit) :=
    sysRun_preserves r0 r1 sched sysInit hinit
  obtain ⟨i0, i1, -, -⟩ := hinv
  have o0 := i0 h0
  have o1 := i1 h1
  exact ⟨o0.1.trans o1.1.symm, o0.1, o0.2⟩

/-- Witness for C9 (amended): a concrete schedule on which both tasks finish
and observe the same cached value. -/
theorem config_cache_agreement_witness :
    (sysRun (none : Option TequilaConfig) none [false, false, true]
      sysInit).t0.observed =
    (sysRun (none : Option TequilaConfig) none [false, false, true]
      sysInit).t1.observed ∧
    (sysRun (none : Option TequilaConfig) none [false, false, true]
      sysInit).t0.observed =
    (sysRun (none : Option TequilaConfig) none [false, false, true]
      sysInit).cache.cell ∧
    (sysRun (none : Option TequilaConfig) none [false, false, true]
      sysInit).t0.observed ≠ none :=
  config_cache_agreement none none [false, false, true] rfl rfl

end Tequila
